import Mathlib

set_option maxRecDepth 8000

/-
Verification of the proof-of-work ledger in src/app.rs.

Embedding conventions:
  - Rust String values are modeled as Lean lists of characters (List Char);
    a Rust string literal "s" is written as the Lean literal with .data.
  - u64 fields are modeled as Nat (the claims never exercise u64 wraparound:
    the id increment previous_block.id + 1 would wrap only at 2^64 - 1, and
    the mining nonce is considered only under a termination hypothesis),
    i64 timestamps as Int.
  - Vec push is list append; Vec.last is List.getLast?.
  - A Rust panic (expect / panic!) is the error case of Except Panic;
    every other code path is Except.ok.
  - Utc::now().timestamp() is modeled by passing the timestamp as an
    explicit argument to the functions that read the clock.
-/

/-- The panic sites of src/app.rs, identified by their message. -/
inductive Panic where
  /-- expect message: cant decode from hex (in is_block_valid) -/
  | cantDecodeFromHex
  /-- expect message: there is atleast a single block (in try_add_block) -/
  | atleastASingleBlock
  /-- panic message: local and remote chains invalid (in choose_chain) -/
  | localAndRemoteChainsInvalid
deriving DecidableEq, Repr

/-- src/app.rs lines 5-13: the Block struct. -/
structure Block where
  id : Nat
  hash : List Char
  previous_hash : List Char
  timestamp : Int
  data : List Char
  nonce : Nat
deriving DecidableEq, Repr

/-- src/app.rs lines 1-3: the App struct owning the chain. -/
structure App where
  blocks : List Block
deriving DecidableEq, Repr

/-- src/app.rs line 17: const DIFFICULTY_PREFIX = "00" (as character list). -/
def DIFFICULTY_PREFIX_CHARS : List Char := ['0', '0']

/-- Fuel-driven structural recursion computing the minimal binary digits of
a number, most significant first; with fuel at least the number it agrees
with the true digit expansion (binDigitsAux_stable below). -/
def binDigitsAux : Nat → Nat → List Char
  | _, 0 => []
  | 0, _ + 1 => []
  | fuel + 1, m + 1 =>
    binDigitsAux fuel ((m + 1) / 2) ++ [if (m + 1) % 2 = 1 then '1' else '0']

/-- The minimal (unpadded) binary digit rendering produced by the Rust
format specifier b on a nonnegative integer: no digits for 0, most
significant digit first otherwise. -/
def binDigits (n : Nat) : List Char := binDigitsAux n n

/-- format with specifier b of a byte value: "0" for zero, otherwise the
minimal binary digits (no zero padding). -/
def byteBits (n : Nat) : List Char :=
  if n = 0 then ['0'] else binDigits n

/-- src/app.rs lines 21-27: hash_to_binary_representation. Each byte is
rendered with the b format specifier and pushed onto the result string. -/
def hash_to_binary_representation : List Nat → List Char
  | [] => []
  | c :: rest => byteBits c ++ hash_to_binary_representation rest

/-- Value of one hexadecimal digit character (the hex crate accepts both
cases), none for a non-hex character; computed from the code point. -/
def hexVal (c : Char) : Option Nat :=
  if '0' ≤ c ∧ c ≤ '9' then some (c.toNat - 48)
  else if 'a' ≤ c ∧ c ≤ 'f' then some (c.toNat - 87)
  else if 'A' ≤ c ∧ c ≤ 'F' then some (c.toNat - 55)
  else none

/-- hex crate decode: two hex digits per byte, failing on odd length or a
non-hex character. -/
def hexDecode : List Char → Option (List Nat)
  | [] => some []
  | [_] => none
  | hi :: lo :: rest =>
    match hexVal hi, hexVal lo, hexDecode rest with
    | some h, some l, some bs => some ((h * 16 + l) :: bs)
    | _, _, _ => none

/-- Lowercase hex digit character of a value below 16, computed from the
code point (digits from 48, letters from 87). -/
def hexDigitChar (n : Nat) : Char :=
  if n < 10 then Char.ofNat (48 + n) else Char.ofNat (87 + n)

/-- hex crate encode: lowercase, two digits per byte. -/
def hexEncode : List Nat → List Char
  | [] => []
  | b :: bs => hexDigitChar (b / 16 % 16) :: hexDigitChar (b % 16) :: hexEncode bs

/-- 2^64, the modulus of the 64-bit arithmetic in the modelled digest. -/
def U64MOD : Nat := 18446744073709551616

/-- Modelled from the spec: a 64-bit mixing step (a splitmix-style finalizer)
used to build the digest; the spec leaves the digest algorithm unspecified
(calculate_hash lives outside src/app.rs), requiring only a fixed
deterministic digest shared by Miner and Validator. -/
def mix64 (x0 : Nat) : Nat :=
  let x1 := ((x0 ^^^ (x0 >>> 30)) * 13787848793156543929) % U64MOD
  let x2 := ((x1 ^^^ (x1 >>> 27)) * 10723151780598845931) % U64MOD
  x2 ^^^ (x2 >>> 31)

/-- Modelled from the spec: absorb a byte sequence into a 64-bit state. -/
def absorbBytes (bytes : List Nat) : Nat :=
  bytes.foldl (fun st b => mix64 ((st + b + 1) % U64MOD)) 14695981039346656037

/-- The eight bytes of a 64-bit word, least significant first. -/
def wordBytes (w : Nat) : List Nat :=
  [w % 256, (w >>> 8) % 256, (w >>> 16) % 256, (w >>> 24) % 256,
   (w >>> 32) % 256, (w >>> 40) % 256, (w >>> 48) % 256, (w >>> 56) % 256]

/-- Length-prefix a string field, as the spec requires an unambiguous
encoding of each field. -/
def lenPrefixed (s : List Char) : List Char :=
  (toString s.length).data ++ ':' :: s

/-- Modelled from the spec: the canonical byte encoding of the five block
fields, concatenated in a fixed order with separators and length prefixes. -/
def fieldEncoding (id : Nat) (timestamp : Int) (previous_hash data : List Char)
    (nonce : Nat) : List Nat :=
  ((toString id).data ++ '|' :: (toString timestamp).data ++
    '|' :: lenPrefixed previous_hash ++ '|' :: lenPrefixed data ++
    '|' :: (toString nonce).data).map Char.toNat

/-- Modelled from the spec: calculate_hash is declared outside src/app.rs
(only its callers are in the excerpt); the spec fixes its contract as a
deterministic 256-bit digest over the unambiguous encoding of
(id, timestamp, previous_hash, data, nonce). Modelled as four squeezed
64-bit words over the absorbed field encoding, 32 bytes in all. -/
def calculate_hash (id : Nat) (timestamp : Int) (previous_hash data : List Char)
    (nonce : Nat) : List Nat :=
  let st := absorbBytes (fieldEncoding id timestamp previous_hash data nonce)
  wordBytes (mix64 ((st + 1) % U64MOD)) ++ wordBytes (mix64 ((st + 2) % U64MOD)) ++
    wordBytes (mix64 ((st + 3) % U64MOD)) ++ wordBytes (mix64 ((st + 4) % U64MOD))

/-- src/app.rs lines 29-31: App::new constructs with an empty chain
(it does not call genesis). -/
def App.new : App := { blocks := [] }

/-- src/app.rs line 42: the hard-coded genesis hash string. -/
def GENESIS_HASH : List Char :=
  "0000f816a87f806bb0073dcf026a64fb40c946b5abee2573702828694d5b4c43".data

/-- src/app.rs lines 35-45: genesis pushes the hard-coded first block; the
timestamp it reads from the clock is passed explicitly. -/
def App.genesis (app : App) (timestamp : Int) : App :=
  { blocks := app.blocks ++
      [{ id := 0, timestamp := timestamp, previous_hash := "genesis".data,
         data := "genesis".data, nonce := 2836, hash := GENESIS_HASH }] }

/-- src/app.rs lines 58-85: is_block_valid. The expect on hex decode is the
panic case; each early return false corresponds to one warn branch. -/
def is_block_valid (block previous_block : Block) : Except Panic Bool :=
  if block.previous_hash ≠ previous_block.hash then
    .ok false
  else
    match hexDecode block.hash with
    | none => .error .cantDecodeFromHex
    | some bytes =>
      if !(DIFFICULTY_PREFIX_CHARS.isPrefixOf (hash_to_binary_representation bytes)) then
        .ok false
      else if block.id ≠ previous_block.id + 1 then
        .ok false
      else if hexEncode (calculate_hash block.id block.timestamp
          block.previous_hash block.data block.nonce) ≠ block.hash then
        .ok false
      else
        .ok true

/-- The warn branches of is_block_valid, in source order. -/
inductive Rejection where
  /-- warn: has an invalid previous hash -/
  | invalidPreviousHash
  /-- warn: has an invalid difficulty -/
  | invalidDifficulty
  /-- warn: is not the block after the latest -/
  | notTheNextBlock
  /-- warn: has an invalid hash -/
  | invalidHash
deriving DecidableEq, Repr

/-- is_block_valid instrumented to report which warn branch fires (none when
the block is accepted); same checks in the same order as the source. -/
def block_warning (block previous_block : Block) : Except Panic (Option Rejection) :=
  if block.previous_hash ≠ previous_block.hash then
    .ok (some .invalidPreviousHash)
  else
    match hexDecode block.hash with
    | none => .error .cantDecodeFromHex
    | some bytes =>
      if !(DIFFICULTY_PREFIX_CHARS.isPrefixOf (hash_to_binary_representation bytes)) then
        .ok (some .invalidDifficulty)
      else if block.id ≠ previous_block.id + 1 then
        .ok (some .notTheNextBlock)
      else if hexEncode (calculate_hash block.id block.timestamp
          block.previous_hash block.data block.nonce) ≠ block.hash then
        .ok (some .invalidHash)
      else
        .ok none

/-- src/app.rs lines 47-54: try_add_block. The expect on an empty chain is a
panic; a rejected block leaves the chain unchanged. -/
def try_add_block (app : App) (block : Block) : Except Panic App :=
  match app.blocks.getLast? with
  | none => .error .atleastASingleBlock
  | some latest_block =>
    match is_block_valid block latest_block with
    | .error e => .error e
    | .ok true => .ok { blocks := app.blocks ++ [block] }
    | .ok false => .ok app

/-- src/app.rs lines 87-99: is_chain_valid walks adjacent pairs starting at
index 1 (line 94 reads self.block.is_block_valid, an obvious transcription
slip for self.is_block_valid, which is the only validator in scope). The
index loop over get(i-1), get(i) is rendered as structural recursion over
adjacent pairs; a panic inside the pair validator propagates. -/
def is_chain_valid : List Block → Except Panic Bool
  | first :: second :: rest =>
    (match is_block_valid second first with
     | .error e => .error e
     | .ok true => is_chain_valid (second :: rest)
     | .ok false => .ok false)
  | _ => .ok true

/-- src/app.rs lines 102-120: choose_chain; both validities are computed
first, then the four-way policy; the final arm is the panic. (The source
parameter names local and remote are Lean keywords, hence the suffix.) -/
def choose_chain (localc remotec : List Block) : Except Panic (List Block) :=
  match is_chain_valid localc with
  | .error e => .error e
  | .ok is_local_valid =>
    match is_chain_valid remotec with
    | .error e => .error e
    | .ok is_remote_valid =>
      if is_local_valid && is_remote_valid then
        (if localc.length ≥ remotec.length then .ok localc else .ok remotec)
      else if is_remote_valid && !is_local_valid then .ok remotec
      else if !is_remote_valid && is_local_valid then .ok localc
      else .error .localAndRemoteChainsInvalid

/-- src/app.rs lines 145-161: the body of the unbounded mining loop,
starting at the given nonce; the unbounded Rust loop is given explicit
fuel, so that termination of the source loop is the hypothesis that some
fuel returns a result. -/
def mine_block_loop (id : Nat) (timestamp : Int) (previous_hash data : List Char)
    (nonce : Nat) : Nat → Option (Nat × List Char)
  | 0 => none
  | fuel + 1 =>
    let hash := calculate_hash id timestamp previous_hash data nonce
    let binary_hash := hash_to_binary_representation hash
    if DIFFICULTY_PREFIX_CHARS.isPrefixOf binary_hash then
      some (nonce, hexEncode hash)
    else
      mine_block_loop id timestamp previous_hash data (nonce + 1) fuel

/-- src/app.rs lines 141-162: mine_block starts the search at nonce 0. -/
def mine_block (id : Nat) (timestamp : Int) (previous_hash data : List Char)
    (fuel : Nat) : Option (Nat × List Char) :=
  mine_block_loop id timestamp previous_hash data 0 fuel

/-- src/app.rs lines 127-139: Block::new mines and assembles the block; the
clock value is passed explicitly, the fuel as for mine_block. -/
def Block.new (id : Nat) (previous_hash data : List Char) (timestamp : Int)
    (fuel : Nat) : Option Block :=
  (mine_block id timestamp previous_hash data fuel).map fun p =>
    { id := id, hash := p.2, timestamp := timestamp,
      previous_hash := previous_hash, data := data, nonce := p.1 }

instance {ε α : Type} [DecidableEq ε] [DecidableEq α] : DecidableEq (Except ε α) :=
  fun a b =>
    match a, b with
    | .error x, .error y =>
      if h : x = y then isTrue (by rw [h]) else isFalse (fun hh => h (Except.error.inj hh))
    | .error _, .ok _ => isFalse (fun h => Except.noConfusion h)
    | .ok _, .error _ => isFalse (fun h => Except.noConfusion h)
    | .ok x, .ok y =>
      if h : x = y then isTrue (by rw [h]) else isFalse (fun hh => h (Except.ok.inj hh))

/-- A block whose stored hash is a valid proof of work over the modelled
digest (found by exhaustive search, as a miner would): the successor of
blockPrev below. -/
def blockMined : Block :=
  { id := 1,
    hash := "00000626d7ad5cd59cb6405fd63beb57e4b064d5d1406502fb1f648820637aa6".data,
    previous_hash := GENESIS_HASH, timestamp := 1700000001,
    data := "c8-5395".data, nonce := 0 }

/-- A concrete predecessor block carrying the genesis hash. -/
def blockPrev : Block :=
  { id := 0, hash := GENESIS_HASH, previous_hash := "genesis".data,
    timestamp := 1700000000, data := "genesis".data, nonce := 2836 }

/-- A concrete block with a decodable two-byte hash, used to instantiate the
validator checks. -/
def blockA : Block :=
  { id := 3, hash := "00".data, previous_hash := "q".data,
    timestamp := 5, data := "e".data, nonce := 7 }

/-- A concrete successor candidate for blockA with a decodable hash. -/
def blockB : Block :=
  { id := 4, hash := "0000".data, previous_hash := "00".data,
    timestamp := 6, data := "f".data, nonce := 8 }

/-- A concrete block whose hash field is not well-formed hexadecimal. -/
def blockC : Block :=
  { id := 1, hash := "zz".data, previous_hash := "00".data,
    timestamp := 0, data := "d".data, nonce := 0 }

/-- A two-block chain whose adjacent pair fails the link check (blockA does
not reference its own hash), hence an invalid chain. -/
def chainBadA : List Block := [blockA, blockA]

/-- Another invalid two-block chain, built from blockB. -/
def chainBadB : List Block := [blockB, blockB]

/-- A second block with a malformed hash, linking to blockB. -/
def blockD : Block :=
  { id := 5, hash := "gg".data, previous_hash := "0000".data,
    timestamp := 1, data := "d".data, nonce := 2 }

/-- With any two sufficient amounts of fuel, the digit computation agrees. -/
theorem binDigitsAux_stable (m : Nat) :
    ∀ f₁ f₂, m ≤ f₁ → m ≤ f₂ → binDigitsAux f₁ m = binDigitsAux f₂ m := by
  induction m using Nat.strong_induction_on with
  | _ m ih =>
    intro f₁ f₂ h₁ h₂
    match m, f₁, f₂ with
    | 0, f₁, f₂ => cases f₁ <;> cases f₂ <;> rfl
    | m + 1, f₁ + 1, f₂ + 1 =>
      simp only [binDigitsAux]
      rw [ih ((m + 1) / 2) (by omega) f₁ f₂ (by omega) (by omega)]

/-- The recursive unfolding of the minimal binary rendering. -/
theorem binDigits_succ (m : Nat) :
    binDigits (m + 1) =
      binDigits ((m + 1) / 2) ++ [if (m + 1) % 2 = 1 then '1' else '0'] := by
  show binDigitsAux (m + 1) (m + 1) = _
  simp only [binDigitsAux]
  rw [binDigits, binDigitsAux_stable ((m + 1) / 2) m ((m + 1) / 2) (by omega) (by omega)]

/-- A positive number's minimal binary rendering starts with the digit 1. -/
theorem binDigits_head (n : Nat) (h : n ≠ 0) : ∃ t, binDigits n = '1' :: t := by
  induction n using Nat.strong_induction_on with
  | _ n ih =>
    match n with
    | m + 1 =>
      rw [binDigits_succ]
      by_cases h2 : (m + 1) / 2 = 0
      · have hm : m = 0 := by omega
        subst hm
        exact ⟨[], rfl⟩
      · obtain ⟨t, ht⟩ := ih ((m + 1) / 2) (by omega) h2
        rw [ht]
        exact ⟨t ++ [if (m + 1) % 2 = 1 then '1' else '0'], rfl⟩

/-- The zero byte renders as the single character 0. -/
theorem byteBits_zero : byteBits 0 = ['0'] := rfl

/-- A nonzero byte value renders with a leading 1 and no zero padding. -/
theorem byteBits_pos (b : Nat) (h : b ≠ 0) : ∃ t, byteBits b = '1' :: t := by
  rw [byteBits, if_neg h]
  exact binDigits_head b h

/-- The difficulty test of the code is the two-character prefix 00. -/
theorem isPrefixOf00_iff (l : List Char) :
    DIFFICULTY_PREFIX_CHARS.isPrefixOf l = true ↔ ∃ t, l = '0' :: '0' :: t := by
  match l with
  | [] =>
    constructor
    · intro h
      exact absurd h (by decide)
    · rintro ⟨t, ht⟩
      cases ht
  | [a] =>
    constructor
    · intro h
      rw [show DIFFICULTY_PREFIX_CHARS.isPrefixOf [a] =
            (('0' == a) && false) from rfl] at h
      simp at h
    · rintro ⟨t, ht⟩
      cases ht
  | a :: b :: t =>
    constructor
    · intro h
      simp only [DIFFICULTY_PREFIX_CHARS, List.isPrefixOf, Bool.and_true,
        Bool.and_eq_true, beq_iff_eq] at h
      obtain ⟨ha, hb⟩ := h
      exact ⟨t, by rw [← ha, ← hb]⟩
    · rintro ⟨t', ht⟩
      cases ht
      simp [DIFFICULTY_PREFIX_CHARS, List.isPrefixOf]

/-- C1: the spec requires the difficulty rendering to pad every byte to a
fixed 8-bit width, so that an n-byte digest renders to exactly 8*n
characters with leading zero bits preserved. The code instead renders each
byte with the minimal-width b format: the one-byte digest 0x01 renders to
the single character 1 instead of the eight characters 00000001, so the
leading-zero bits of the byte are silently dropped, exactly the naive
rendering the spec rules out. -/
theorem claim_C1_unpadded_rendering :
    hash_to_binary_representation [1] = ['1'] ∧
    (hash_to_binary_representation [1]).length ≠ 8 * 1 ∧
    hash_to_binary_representation [0] = ['0'] ∧
    (hash_to_binary_representation [0]).length ≠ 8 * 1 := by
  refine ⟨rfl, by decide, rfl, by decide⟩

/-- C10: the difficulty predicate the code actually enforces — the rendered
digest starts with the two characters 00 — holds exactly when the digest
begins with two zero bytes (so the effective puzzle is 16 leading zero
bits): the zero byte renders as the single character 0, every nonzero byte
renders with a leading 1. The very same expression
DIFFICULTY_PREFIX_CHARS.isPrefixOf (hash_to_binary_representation bytes)
is the test used in mine_block and on the decoded hash in is_block_valid. -/
theorem claim_C10_effective_difficulty :
    byteBits 0 = ['0'] ∧
    (∀ b : Nat, b ≠ 0 → ∃ t, byteBits b = '1' :: t) ∧
    (∀ hash : List Nat,
      DIFFICULTY_PREFIX_CHARS.isPrefixOf (hash_to_binary_representation hash) = true ↔
        ∃ rest, hash = 0 :: 0 :: rest) := by
  refine ⟨rfl, byteBits_pos, ?_⟩
  intro hash
  rw [isPrefixOf00_iff]
  constructor
  · rintro ⟨t, ht⟩
    match hash with
    | [] => simp [hash_to_binary_representation] at ht
    | b0 :: rest0 =>
      by_cases h0 : b0 = 0
      · subst h0
        match rest0 with
        | [] =>
          simp [hash_to_binary_representation, byteBits_zero] at ht
        | b1 :: rest1 =>
          by_cases h1 : b1 = 0
          · subst h1
            exact ⟨rest1, rfl⟩
          · obtain ⟨t1, ht1⟩ := byteBits_pos b1 h1
            simp [hash_to_binary_representation, byteBits_zero, ht1] at ht
      · obtain ⟨t0, ht0⟩ := byteBits_pos b0 h0
        simp [hash_to_binary_representation, ht0] at ht
  · rintro ⟨rest, rfl⟩
    exact ⟨hash_to_binary_representation rest, by
      simp [hash_to_binary_representation, byteBits_zero]⟩

/-- Concrete instantiation of the effective-difficulty characterization. -/
theorem claim_C10_effective_difficulty_witness :
    (byteBits 5).head? = some '1' ∧
    DIFFICULTY_PREFIX_CHARS.isPrefixOf
      (hash_to_binary_representation [0, 0, 248]) = true := by
  constructor
  · obtain ⟨t, ht⟩ := claim_C10_effective_difficulty.2.1 5 (by decide)
    rw [ht]
    rfl
  · exact (claim_C10_effective_difficulty.2.2 [0, 0, 248]).mpr ⟨[248], rfl⟩

/-- C2: on a block whose stored hash hex-decodes, is_block_valid returns
true exactly when all four checks pass and false on any failure, and the
checks are short-circuited in source order, the first failing check
selecting the warn reason: (1) previous-hash link, (2) difficulty of the
decoded stored hash, (3) id sequencing, (4) recomputed hash equality. -/
theorem claim_C2_ordered_checks (block previous_block : Block) (bytes : List Nat)
    (hdec : hexDecode block.hash = some bytes) :
    (is_block_valid block previous_block = .ok true ↔
      (block.previous_hash = previous_block.hash ∧
       DIFFICULTY_PREFIX_CHARS.isPrefixOf (hash_to_binary_representation bytes) = true ∧
       block.id = previous_block.id + 1 ∧
       hexEncode (calculate_hash block.id block.timestamp block.previous_hash
         block.data block.nonce) = block.hash)) ∧
    (is_block_valid block previous_block = .ok false ↔
      ¬(block.previous_hash = previous_block.hash ∧
        DIFFICULTY_PREFIX_CHARS.isPrefixOf (hash_to_binary_representation bytes) = true ∧
        block.id = previous_block.id + 1 ∧
        hexEncode (calculate_hash block.id block.timestamp block.previous_hash
          block.data block.nonce) = block.hash)) ∧
    (block_warning block previous_block = .ok (some .invalidPreviousHash) ↔
      block.previous_hash ≠ previous_block.hash) ∧
    (block_warning block previous_block = .ok (some .invalidDifficulty) ↔
      (block.previous_hash = previous_block.hash ∧
       DIFFICULTY_PREFIX_CHARS.isPrefixOf (hash_to_binary_representation bytes) = false)) ∧
    (block_warning block previous_block = .ok (some .notTheNextBlock) ↔
      (block.previous_hash = previous_block.hash ∧
       DIFFICULTY_PREFIX_CHARS.isPrefixOf (hash_to_binary_representation bytes) = true ∧
       block.id ≠ previous_block.id + 1)) ∧
    (block_warning block previous_block = .ok (some .invalidHash) ↔
      (block.previous_hash = previous_block.hash ∧
       DIFFICULTY_PREFIX_CHARS.isPrefixOf (hash_to_binary_representation bytes) = true ∧
       block.id = previous_block.id + 1 ∧
       hexEncode (calculate_hash block.id block.timestamp block.previous_hash
         block.data block.nonce) ≠ block.hash)) ∧
    (block_warning block previous_block = .ok none ↔
      is_block_valid block previous_block = .ok true) := by
  by_cases c1 : block.previous_hash = previous_block.hash
  · rcases hc2 : DIFFICULTY_PREFIX_CHARS.isPrefixOf (hash_to_binary_representation bytes)
    · simp [is_block_valid, block_warning, hdec, c1, hc2]
    · by_cases c3 : block.id = previous_block.id + 1
      · by_cases c4 : hexEncode (calculate_hash block.id block.timestamp
            block.previous_hash block.data block.nonce) = block.hash
        · rw [c1, c3] at c4
          simp [is_block_valid, block_warning, hdec, c1, hc2, c3, c4]
        · rw [c1, c3] at c4
          simp [is_block_valid, block_warning, hdec, c1, hc2, c3, c4]
      · simp [is_block_valid, block_warning, hdec, c1, hc2, c3]
  · simp [is_block_valid, block_warning, hdec, c1]

/-- Concrete instantiation of the ordered validator checks: blockB against
blockA (decodable hash 0000, link and difficulty pass, recomputed hash
fails, so the reason is the invalid-hash warn). -/
theorem claim_C2_ordered_checks_witness :
    hexDecode blockB.hash = some [0, 0] ∧
    (is_block_valid blockB blockA = .ok true ↔
      (blockB.previous_hash = blockA.hash ∧
       DIFFICULTY_PREFIX_CHARS.isPrefixOf (hash_to_binary_representation [0, 0]) = true ∧
       blockB.id = blockA.id + 1 ∧
       hexEncode (calculate_hash blockB.id blockB.timestamp blockB.previous_hash
         blockB.data blockB.nonce) = blockB.hash)) :=
  ⟨rfl, (claim_C2_ordered_checks blockB blockA [0, 0] rfl).1⟩

/-- C3 counterexample: blockC carries the non-hex hash zz and a matching
previous-hash link; is_block_valid hits the expect on hex decode and
panics (modeled as the error case) instead of returning false, refuting
the claim that a malformed hash encoding is treated as a validation
failure that never crashes. -/
theorem claim_C3_hex_panic_counterexample :
    is_block_valid blockC blockA = .error .cantDecodeFromHex ∧
    is_block_valid blockC blockA ≠ .ok false := by
  refine ⟨rfl, by decide⟩

/-- C3 amended: for a block whose stored hash is not well-formed hex, the
outcome depends on the earlier link check: if the link check fails the
block is rejected with false before any decoding, but if the link check
passes, is_block_valid panics via the expect on hex decode (aborting the
process) rather than returning false. -/
theorem claim_C3_hex_panic (block previous_block : Block)
    (hdec : hexDecode block.hash = none) :
    (block.previous_hash = previous_block.hash →
      is_block_valid block previous_block = .error .cantDecodeFromHex) ∧
    (block.previous_hash ≠ previous_block.hash →
      is_block_valid block previous_block = .ok false) := by
  constructor
  · intro hlink
    simp [is_block_valid, hlink, hdec]
  · intro hlink
    simp [is_block_valid, hlink]

/-- Concrete instantiation of the amended malformed-hex behavior on both
branches of the link check. -/
theorem claim_C3_hex_panic_witness :
    is_block_valid blockD blockB = .error .cantDecodeFromHex ∧
    is_block_valid blockD blockMined = .ok false := by
  constructor
  · exact (claim_C3_hex_panic blockD blockB rfl).1 rfl
  · exact (claim_C3_hex_panic blockD blockMined rfl).2 (by decide)

/-- C4 counterexample: App::new does not seed the genesis block; directly
after new() the chain is empty, not a one-block chain holding genesis. -/
theorem claim_C4_new_empty_counterexample :
    App.new.blocks = [] ∧ App.new.blocks.length ≠ 1 := by
  refine ⟨rfl, by decide⟩

/-- C4 amended: new() constructs an empty chain; seeding happens only when
genesis() is called (by the external event loop), which appends the
hard-coded block with id 0, previous_hash genesis, data genesis, nonce
2836 and the fixed hash string, whatever the clock reads; that stored hash
hex-decodes and satisfies the difficulty rule (it begins with two zero
bytes). The stored hash is hard-coded rather than recomputed: the genesis
timestamp is the construction-time clock value, so no fixed stored hash
can equal the recomputation for every construction time. -/
theorem claim_C4_genesis_seeding (t : Int) :
    App.new.blocks = [] ∧
    (App.new.genesis t).blocks =
      [{ id := 0, timestamp := t, previous_hash := "genesis".data,
         data := "genesis".data, nonce := 2836, hash := GENESIS_HASH }] ∧
    ∃ bs, hexDecode GENESIS_HASH = some bs ∧
      DIFFICULTY_PREFIX_CHARS.isPrefixOf (hash_to_binary_representation bs) = true := by
  refine ⟨rfl, rfl, ⟨[0, 0, 248, 22, 168, 127, 128, 107, 176, 7, 61, 207, 2, 106,
    100, 251, 64, 201, 70, 181, 171, 238, 37, 115, 112, 40, 40, 105, 77, 91, 76, 67],
    rfl, rfl⟩⟩

/-- C5 counterexample: on two concretely invalid chains choose_chain takes
the panic arm (the process aborts with the message local and remote chains
invalid); no chain value or recoverable error value is returned to the
caller, refuting the claim that the dual-invalid case is surfaced as a
recoverable conflict error. -/
theorem claim_C5_dual_invalid_counterexample :
    choose_chain chainBadA chainBadB = .error .localAndRemoteChainsInvalid := by
  rfl

/-- C5 amended: whenever the chain validator reports both the local and the
remote chain invalid, choose_chain panics (aborts the process) via the
panic macro instead of signalling a recoverable conflict to the caller. -/
theorem claim_C5_dual_invalid_panics (localc remotec : List Block)
    (hl : is_chain_valid localc = .ok false)
    (hr : is_chain_valid remotec = .ok false) :
    choose_chain localc remotec = .error .localAndRemoteChainsInvalid := by
  simp [choose_chain, hl, hr]

/-- Concrete instantiation of the dual-invalid panic. -/
theorem claim_C5_dual_invalid_panics_witness :
    choose_chain chainBadB chainBadA = .error .localAndRemoteChainsInvalid :=
  claim_C5_dual_invalid_panics chainBadB chainBadA rfl rfl

/-- C6: fork choice between chains the validator accepts: both valid picks
the longer chain and the local one on ties; exactly one valid picks the
valid one. -/
theorem claim_C6_fork_choice (localc remotec : List Block) :
    (is_chain_valid localc = .ok true → is_chain_valid remotec = .ok true →
      remotec.length ≤ localc.length → choose_chain localc remotec = .ok localc) ∧
    (is_chain_valid localc = .ok true → is_chain_valid remotec = .ok true →
      localc.length < remotec.length → choose_chain localc remotec = .ok remotec) ∧
    (is_chain_valid localc = .ok true → is_chain_valid remotec = .ok false →
      choose_chain localc remotec = .ok localc) ∧
    (is_chain_valid localc = .ok false → is_chain_valid remotec = .ok true →
      choose_chain localc remotec = .ok remotec) := by
  refine ⟨?_, ?_, ?_, ?_⟩
  · intro h1 h2 hlen
    simp [choose_chain, h1, h2, ge_iff_le, hlen]
  · intro h1 h2 hlen
    have hnot : ¬(localc.length ≥ remotec.length) := by omega
    simp [choose_chain, h1, h2, hnot]
  · intro h1 h2
    simp [choose_chain, h1, h2]
  · intro h1 h2
    simp [choose_chain, h1, h2]

/-- Concrete instantiations of the four fork-choice outcomes. -/
theorem claim_C6_fork_choice_witness :
    choose_chain [blockA] [] = .ok [blockA] ∧
    choose_chain [] [blockA] = .ok [blockA] ∧
    choose_chain [] chainBadA = .ok [] ∧
    choose_chain chainBadB [] = .ok [] := by
  refine ⟨?_, ?_, ?_, ?_⟩
  · exact (claim_C6_fork_choice [blockA] []).1 rfl rfl (by decide)
  · exact (claim_C6_fork_choice [] [blockA]).2.1 rfl rfl (by decide)
  · exact (claim_C6_fork_choice [] chainBadA).2.2.1 rfl rfl
  · exact (claim_C6_fork_choice chainBadB []).2.2.2 rfl rfl

/-- Chain validation accepts exactly the chains all of whose adjacent pairs
the block validator accepts (vacuously the empty and one-block chains). -/
theorem is_chain_valid_ok_true : ∀ (chain : List Block),
    is_chain_valid chain = .ok true ↔
      ∀ p ∈ chain.zip chain.tail, is_block_valid p.2 p.1 = .ok true
  | [] => by simp [is_chain_valid]
  | [a] => by simp [is_chain_valid]
  | a :: b :: rest => by
    have ih := is_chain_valid_ok_true (b :: rest)
    cases hab : is_block_valid b a with
    | error e =>
      constructor
      · intro h
        rw [show is_chain_valid (a :: b :: rest) = .error e from by
          simp [is_chain_valid, hab]] at h
        exact absurd h (by simp)
      · intro h
        have h2 := h (a, b) (by simp)
        rw [hab] at h2
        exact absurd h2 (by simp)
    | ok v =>
      cases v with
      | false =>
        constructor
        · intro h
          rw [show is_chain_valid (a :: b :: rest) = .ok false from by
            simp [is_chain_valid, hab]] at h
          exact absurd h (by simp)
        · intro h
          have h2 := h (a, b) (by simp)
          rw [hab] at h2
          exact absurd h2 (by simp)
      | true =>
        have heq : is_chain_valid (a :: b :: rest) = is_chain_valid (b :: rest) := by
          simp [is_chain_valid, hab]
        rw [heq, ih]
        constructor
        · intro h p hp
          rcases List.mem_cons.mp hp with h1 | h1
          · rw [h1]
            exact hab
          · exact h p h1
        · intro h p hp
          exact h p (List.mem_cons_of_mem _ hp)

/-- Chain validation short-circuits: a valid stretch followed by one
invalid adjacent pair yields false whatever comes after. -/
theorem is_chain_valid_shortcircuit : ∀ (pre : List Block) (a b : Block)
    (post : List Block),
    is_chain_valid (pre ++ [a]) = .ok true →
    is_block_valid b a = .ok false →
    is_chain_valid (pre ++ a :: b :: post) = .ok false
  | [], a, b, post => by
    intro _ hab
    simp [is_chain_valid, hab]
  | x :: pre', a, b, post => by
    intro hpre hab
    cases pre' with
    | nil =>
      cases h2 : is_block_valid a x with
      | error e => simp [is_chain_valid, h2] at hpre
      | ok v =>
        cases v with
        | false => simp [is_chain_valid, h2] at hpre
        | true =>
          show is_chain_valid (x :: a :: b :: post) = .ok false
          simp [is_chain_valid, h2, hab]
    | cons y pre'' =>
      cases h2 : is_block_valid y x with
      | error e => simp [is_chain_valid, h2] at hpre
      | ok v =>
        cases v with
        | false => simp [is_chain_valid, h2] at hpre
        | true =>
          have hpre2 : is_chain_valid ((y :: pre'') ++ [a]) = .ok true := by
            rw [show is_chain_valid ((x :: y :: pre'') ++ [a]) =
              is_chain_valid ((y :: pre'') ++ [a]) from by
                simp [is_chain_valid, h2]] at hpre
            exact hpre
          have hrec := is_chain_valid_shortcircuit (y :: pre'') a b post hpre2 hab
          show is_chain_valid (x :: y :: (pre'' ++ a :: b :: post)) = .ok false
          rw [show is_chain_valid (x :: y :: (pre'' ++ a :: b :: post)) =
            is_chain_valid (y :: (pre'' ++ a :: b :: post)) from by
              simp [is_chain_valid, h2]]
          exact hrec

/-- C7: is_chain_valid is true exactly when every adjacent pair
(chain at i-1, chain at i), i at least 1, passes is_block_valid — so the
empty and the one-block chain are always valid and index 0 is never
checked against a predecessor — and it returns false at the first invalid
pair regardless of everything after it. -/
theorem claim_C7_chain_validation :
    (∀ chain : List Block,
      is_chain_valid chain = .ok true ↔
        ∀ p ∈ chain.zip chain.tail, is_block_valid p.2 p.1 = .ok true) ∧
    (∀ (pre : List Block) (a b : Block) (post : List Block),
      is_chain_valid (pre ++ [a]) = .ok true →
      is_block_valid b a = .ok false →
      is_chain_valid (pre ++ a :: b :: post) = .ok false) :=
  ⟨is_chain_valid_ok_true, is_chain_valid_shortcircuit⟩

/-- Concrete instantiations of chain validation: empty chain valid, and a
chain whose second pair is invalid is rejected whatever follows. -/
theorem claim_C7_chain_validation_witness :
    is_chain_valid ([] : List Block) = .ok true ∧
    is_chain_valid ([] ++ blockA :: blockA :: [blockB]) = .ok false := by
  constructor
  · exact (claim_C7_chain_validation.1 []).mpr (by simp)
  · exact claim_C7_chain_validation.2 [] blockA blockA [blockB] rfl rfl

/-- C8: on a ledger with a non-empty chain, try_add_block validates against
the last block; acceptance appends exactly the candidate at the end,
rejection leaves the chain untouched. -/
theorem claim_C8_try_add_block (app : App) (block last : Block)
    (hlast : app.blocks.getLast? = some last) :
    (is_block_valid block last = .ok true →
      try_add_block app block = .ok { blocks := app.blocks ++ [block] }) ∧
    (is_block_valid block last = .ok false →
      try_add_block app block = .ok app) := by
  constructor <;> intro h <;> simp [try_add_block, hlast, h]

/-- Concrete instantiations: a mined valid successor is appended; a
candidate failing validation leaves the ledger unchanged. -/
theorem claim_C8_try_add_block_witness :
    try_add_block { blocks := [blockPrev] } blockMined =
      .ok { blocks := [blockPrev, blockMined] } ∧
    try_add_block { blocks := [blockPrev] } blockB = .ok { blocks := [blockPrev] } := by
  constructor
  · exact (claim_C8_try_add_block { blocks := [blockPrev] } blockMined blockPrev rfl).1 rfl
  · exact (claim_C8_try_add_block { blocks := [blockPrev] } blockB blockPrev rfl).2 rfl

/-- The mining loop, started at any nonce, returns the least nonce from its
starting point whose digest meets the difficulty, paired with the hex
encoding of that digest. -/
theorem mine_block_loop_spec (id : Nat) (timestamp : Int)
    (previous_hash data : List Char) :
    ∀ (fuel start n : Nat) (h : List Char),
      mine_block_loop id timestamp previous_hash data start fuel = some (n, h) →
      start ≤ n ∧
      DIFFICULTY_PREFIX_CHARS.isPrefixOf (hash_to_binary_representation
        (calculate_hash id timestamp previous_hash data n)) = true ∧
      h = hexEncode (calculate_hash id timestamp previous_hash data n) ∧
      ∀ m, start ≤ m → m < n →
        DIFFICULTY_PREFIX_CHARS.isPrefixOf (hash_to_binary_representation
          (calculate_hash id timestamp previous_hash data m)) = false := by
  intro fuel
  induction fuel with
  | zero =>
    intro start n h hloop
    simp [mine_block_loop] at hloop
  | succ fuel ih =>
    intro start n h hloop
    simp only [mine_block_loop] at hloop
    by_cases hc : DIFFICULTY_PREFIX_CHARS.isPrefixOf (hash_to_binary_representation
        (calculate_hash id timestamp previous_hash data start)) = true
    · rw [if_pos hc] at hloop
      have hpair := Option.some.inj hloop
      have hn : start = n := congrArg Prod.fst hpair
      have hh : hexEncode (calculate_hash id timestamp previous_hash data start) = h :=
        congrArg Prod.snd hpair
      subst hn
      refine ⟨le_refl _, hc, hh.symm, ?_⟩
      intro m hm1 hm2
      omega
    · rw [if_neg hc] at hloop
      obtain ⟨hle, hmeets, hhex, hmin⟩ := ih (start + 1) n h hloop
      refine ⟨by omega, hmeets, hhex, ?_⟩
      intro m hm1 hm2
      by_cases hm : m = start
      · rw [hm]
        exact Bool.eq_false_iff.mpr hc
      · exact hmin m (by omega) hm2

/-- C9: when the mining loop terminates it yields the least nonce from 0
whose digest meets the difficulty, together with the digest's hex
encoding; consequently every block assembled by Block::new stores a hash
that equals the hex-encoded recomputation over its own fields and whose
difficulty bitstring starts with 00. -/
theorem claim_C9_mining (id : Nat) (timestamp : Int) (previous_hash data : List Char)
    (fuel n : Nat) (h : List Char)
    (hmine : mine_block id timestamp previous_hash data fuel = some (n, h)) :
    DIFFICULTY_PREFIX_CHARS.isPrefixOf (hash_to_binary_representation
      (calculate_hash id timestamp previous_hash data n)) = true ∧
    (∀ m, m < n → DIFFICULTY_PREFIX_CHARS.isPrefixOf (hash_to_binary_representation
      (calculate_hash id timestamp previous_hash data m)) = false) ∧
    h = hexEncode (calculate_hash id timestamp previous_hash data n) ∧
    ∀ B, Block.new id previous_hash data timestamp fuel = some B →
      hexEncode (calculate_hash B.id B.timestamp B.previous_hash B.data B.nonce) =
        B.hash ∧
      DIFFICULTY_PREFIX_CHARS.isPrefixOf (hash_to_binary_representation
        (calculate_hash B.id B.timestamp B.previous_hash B.data B.nonce)) = true := by
  obtain ⟨-, hmeets, hhex, hmin⟩ :=
    mine_block_loop_spec id timestamp previous_hash data fuel 0 n h hmine
  refine ⟨hmeets, fun m hm => hmin m (Nat.zero_le m) hm, hhex, ?_⟩
  intro B hB
  rw [Block.new, hmine] at hB
  simp only [Option.map_some'] at hB
  have hB2 := Option.some.inj hB
  subst hB2
  constructor
  · simpa using hhex.symm
  · simpa using hmeets

/-- Concrete instantiation of the mining contract at an input whose least
admissible nonce is 0 (found by replaying the digest search). -/
theorem claim_C9_mining_witness :
    mine_block 2 1700000002 "p".data "c9-352034".data 1 =
      some (0, "000038ead5db8eca3391c4d09b6667d455380bb2691b672b1d8a2ecab94d04d4".data) ∧
    DIFFICULTY_PREFIX_CHARS.isPrefixOf (hash_to_binary_representation
      (calculate_hash 2 1700000002 "p".data "c9-352034".data 0)) = true ∧
    "000038ead5db8eca3391c4d09b6667d455380bb2691b672b1d8a2ecab94d04d4".data =
      hexEncode (calculate_hash 2 1700000002 "p".data "c9-352034".data 0) := by
  have hm : mine_block 2 1700000002 "p".data "c9-352034".data 1 =
      some (0, "000038ead5db8eca3391c4d09b6667d455380bb2691b672b1d8a2ecab94d04d4".data) :=
    rfl
  obtain ⟨h1, -, h3, -⟩ :=
    claim_C9_mining 2 1700000002 "p".data "c9-352034".data 1 0 _ hm
  exact ⟨hm, h1, h3⟩
